import Mathlib

/-!
Verification of kpmcore (partition manager core) claims against a shallow
embedding of the source files:
  src/ops/deleteoperation.cpp
  src/plugins/libparted/libpartedbackend.cpp
  src/fs/ext2.cpp
  src/jobs/movephysicalvolumejob.cpp
-/

set_option maxHeartbeats 1000000

namespace KPMCore

/-! ## Partition roles and the partition data model

`PartitionRole::Roles` in the source is a flag set over
{None, Primary, Extended, Logical, Unallocated, Luks}; roles combine
(e.g. Logical + Luks), so we model the set as a structure of booleans. -/

structure Roles where
  primary : Bool
  extended : Bool
  logical : Bool
  unallocated : Bool
  luks : Bool
  deriving DecidableEq, Repr

/-- State of the `FS::luks` filesystem object attached to a partition with the
Luks role, as queried by `DeleteOperation::canDelete`
(`luksFs->isCryptOpen()`, `luksFs->isMounted()`).  `none` models the case
where `dynamic_cast<const FS::luks*>(&p->fileSystem())` yields `nullptr`. -/
structure LuksState where
  isCryptOpen : Bool
  isMounted : Bool
  deriving DecidableEq, Repr

/-- The fields of `Partition` that `DeleteOperation` reads: role set, mount
state, logical number, first sector, and the child list (non-empty only for
Extended partitions).  Children are modelled one level deep, which is faithful
to the tree shape `canDelete` inspects (it looks only at direct children). -/
structure ChildPart where
  roles : Roles
  deriving DecidableEq, Repr

structure Partition where
  roles : Roles
  isMounted : Bool
  number : Int
  firstSector : Int
  children : List ChildPart
  luksFs : Option LuksState
  deriving DecidableEq, Repr

/-! ## DeleteOperation::canDelete (src/ops/deleteoperation.cpp lines 113-138) -/

/-- Shallow embedding of `DeleteOperation::canDelete(const Partition* p)`.
The argument is an `Option` because the source accepts a null pointer.
Branches in source order:
  null → false; mounted → false; Unallocated role → false;
  Extended role → sole child is Unallocated;
  Luks role → false if the filesystem is not a luks object, false if
  `isCryptOpen() || isMounted()`; otherwise true. -/
def canDelete : Option Partition → Bool
  | none => false
  | some p =>
    if p.isMounted then false
    else if p.roles.unallocated then false
    else if p.roles.extended then
      decide (p.children.length = 1) &&
        (match p.children with
         | c :: _ => c.roles.unallocated
         | [] => false)
    else if p.roles.luks then
      match p.luksFs with
      | none => false
      | some l => !(l.isCryptOpen || l.isMounted)
    else true

/-- The claim's refusal condition, written from the claim's words: refuse a
mounted partition, an Unallocated node, an Extended node with at least one
real (non-Unallocated) child, or a locked encrypted container. -/
def canDeleteClaimRefuses (p : Partition) : Bool :=
  p.isMounted ||
  p.roles.unallocated ||
  (p.roles.extended && p.children.any (fun c => !c.roles.unallocated)) ||
  (p.roles.luks && (match p.luksFs with
                    | some l => !l.isCryptOpen
                    | none => true))

/-- An unlocked, unmounted LUKS container: the claim's conditions do not
refuse it, yet the source refuses it (it refuses an *open* container). -/
def openLuksPart : Partition :=
  { roles := { primary := true, extended := false, logical := false,
               unallocated := false, luks := true }
    isMounted := false
    number := 1
    firstSector := 2048
    children := []
    luksFs := some { isCryptOpen := true, isMounted := false } }

/-- A locked (not crypt-open), unmounted LUKS container: the claim refuses
it ("a locked encrypted container"), yet the source deletes it happily. -/
def lockedLuksPart : Partition :=
  { roles := { primary := true, extended := false, logical := false,
               unallocated := false, luks := true }
    isMounted := false
    number := 1
    firstSector := 2048
    children := []
    luksFs := some { isCryptOpen := false, isMounted := false } }

/-- The amended refusal condition, read off the source: refuse a null
pointer, a mounted partition, an Unallocated node, an Extended partition
unless its sole child is Unallocated, and a Luks-role partition whose
filesystem object is not a luks object or whose container is open
(crypt-open) or inner-mounted. -/
def canDeleteAmendedRefuses : Option Partition → Bool
  | none => true
  | some p =>
    p.isMounted ||
    p.roles.unallocated ||
    (p.roles.extended &&
      !(decide (p.children.length = 1) &&
        (match p.children with
         | c :: _ => c.roles.unallocated
         | [] => false))) ||
    (p.roles.luks && !p.roles.extended && !p.roles.unallocated &&
      (match p.luksFs with
       | some l => l.isCryptOpen || l.isMounted
       | none => true))

/-! ## DeleteOperation constructor: job composition
(src/ops/deleteoperation.cpp lines 40-60) -/

/-- `ShredAction` argument of the `DeleteOperation` constructor. -/
inductive ShredAction where
  | noShred
  | zeroShred
  | randomShred
  deriving DecidableEq, Repr

/-- The jobs a `DeleteOperation` can be composed of.  `shredFileSystemJob b`
carries the `randomShred` boolean passed to the `ShredFileSystemJob`
constructor. -/
inductive DeleteOpJob where
  | deleteFileSystemJob
  | shredFileSystemJob (random : Bool)
  | deletePartitionJob
  deriving DecidableEq, Repr

/-- The `m_DeleteFileSystemJob` member chosen by the constructor's `switch` on
the shred action. -/
def deleteFileSystemJobFor : ShredAction → DeleteOpJob
  | .noShred => .deleteFileSystemJob
  | .zeroShred => .shredFileSystemJob false
  | .randomShred => .shredFileSystemJob true

/-- The job list built by the `DeleteOperation` constructor:
`addJob(deleteFileSystemJob()); addJob(deletePartitionJob());`. -/
def deleteOperationJobs (shred : ShredAction) : List DeleteOpJob :=
  [deleteFileSystemJobFor shred, .deletePartitionJob]

/-- A job that destroys or shreds the filesystem (as opposed to removing the
partition-table entry). -/
def DeleteOpJob.destroysOrShredsFileSystem : DeleteOpJob → Bool
  | .deleteFileSystemJob => true
  | .shredFileSystemJob _ => true
  | .deletePartitionJob => false

/-! ## ext2::check (src/fs/ext2.cpp lines 128-132) -/

/-- Shallow embedding of `ext2::check`: `cmd.run(-1) && (cmd.exitCode() == 0
|| cmd.exitCode() == 1 || cmd.exitCode() == 2 || cmd.exitCode() == 256)`.
`ran` is the boolean outcome of `cmd.run(-1)` and `exitCode` the command's
exit code. -/
def ext2Check (ran : Bool) (exitCode : Int) : Bool :=
  ran && (decide (exitCode = 0) || decide (exitCode = 1) ||
          decide (exitCode = 2) || decide (exitCode = 256))

/-! ## ext2::init (src/fs/ext2.cpp lines 47-61) -/

/-- `FileSystem::CommandSupportType` is a plain C++ enum with values
None = 0, Core = 1, FileSystem = 2, Backend = 4. -/
inductive CmdSupport where
  | nosup
  | core
  | filesystem
  | backend
  deriving DecidableEq, Repr

/-- The integer value of each enumerator, used where the C++ code converts the
enum to an integer (in `ext2::init` the expression
`(m_Grow != cmdSupportNone && m_GetUsed) != cmdSupportNone` converts the
`bool` conjunction back to an integer comparison against `cmdSupportNone`). -/
def CmdSupport.toCInt : CmdSupport → Int
  | .nosup => 0
  | .core => 1
  | .filesystem => 2
  | .backend => 4

/-- Which external tools `findExternal` located; one boolean per probe made in
`ext2::init`. -/
structure Ext2Probe where
  dumpe2fs : Bool
  e2label : Bool
  mkfsExt2 : Bool
  e2fsck : Bool
  tune2fs : Bool
  resize2fs : Bool
  deriving DecidableEq, Repr

/-- The capability flags `ext2::init` assigns. -/
structure Ext2Support where
  getUsed : CmdSupport
  getLabel : CmdSupport
  setLabel : CmdSupport
  create : CmdSupport
  check : CmdSupport
  updateUUID : CmdSupport
  grow : CmdSupport
  shrink : CmdSupport
  copy : CmdSupport
  move : CmdSupport
  backup : CmdSupport
  getUUID : CmdSupport
  deriving DecidableEq, Repr

/-- Shallow embedding of `ext2::init`.  Each flag is assigned exactly as in
the source; `shrink` reproduces the source expression
`(m_Grow != cmdSupportNone && m_GetUsed) != cmdSupportNone` including the
C++ bool-to-int conversion: the parenthesized conjunction converts
`m_GetUsed` to `true` iff its integer value is nonzero, and the resulting
bool (0 or 1) is compared against `cmdSupportNone` (0). -/
def ext2Init (pr : Ext2Probe) : Ext2Support :=
  let getUsed := if pr.dumpe2fs then CmdSupport.filesystem else CmdSupport.nosup
  let check := if pr.e2fsck then CmdSupport.filesystem else CmdSupport.nosup
  let grow := if check ≠ CmdSupport.nosup ∧ pr.resize2fs then CmdSupport.filesystem
              else CmdSupport.nosup
  let growAndGetUsed : Bool :=
    decide (grow ≠ CmdSupport.nosup) && decide (getUsed.toCInt ≠ 0)
  let shrink := if (if growAndGetUsed then (1 : Int) else 0) ≠ CmdSupport.nosup.toCInt
                then CmdSupport.filesystem else CmdSupport.nosup
  { getUsed := getUsed
    getLabel := CmdSupport.core
    setLabel := if pr.e2label then CmdSupport.filesystem else CmdSupport.nosup
    create := if pr.mkfsExt2 then CmdSupport.filesystem else CmdSupport.nosup
    check := check
    updateUUID := if pr.tune2fs then CmdSupport.filesystem else CmdSupport.nosup
    grow := grow
    shrink := shrink
    copy := if check ≠ CmdSupport.nosup then CmdSupport.core else CmdSupport.nosup
    move := if check ≠ CmdSupport.nosup then CmdSupport.core else CmdSupport.nosup
    backup := CmdSupport.core
    getUUID := CmdSupport.core }

/-- The dependency invariant claimed for the capability flags: Grow needs
Check; Shrink needs Grow and GetUsed; Copy and Move need Check. -/
def ext2DepInvariant (s : Ext2Support) : Bool :=
  (!decide (s.grow ≠ CmdSupport.nosup) || decide (s.check ≠ CmdSupport.nosup)) &&
  (!decide (s.shrink ≠ CmdSupport.nosup) ||
    (decide (s.grow ≠ CmdSupport.nosup) && decide (s.getUsed ≠ CmdSupport.nosup))) &&
  (!decide (s.copy ≠ CmdSupport.nosup) || decide (s.check ≠ CmdSupport.nosup)) &&
  (!decide (s.move ≠ CmdSupport.nosup) || decide (s.check ≠ CmdSupport.nosup))

/-! ## LibPartedBackend::scanDevicePartitions: record classification
(src/plugins/libparted/libpartedbackend.cpp lines 317-340) -/

/-- `PedPartitionType` values a raw record can carry.  Besides the three
representable kinds, libparted reports freespace, metadata and protected
records; all of those fall into the `default:` branch of the source's
`switch` and are modelled by the remaining constructors. -/
inductive PedKind where
  | normal
  | extended
  | logical
  | freespace
  | metadata
  | protected_
  deriving DecidableEq, Repr

/-- A raw partition record as read from libparted: partition number, kind,
geometry, and the detected filesystem type (opaque here). -/
structure RawRecord where
  num : Int
  kind : PedKind
  geomStart : Int
  geomEnd : Int
  fsType : Nat
  deriving DecidableEq, Repr

/-- The role assigned by the `switch` in `scanDevicePartitions`. -/
inductive ScanRole where
  | primary
  | extended
  | logical
  deriving DecidableEq, Repr

/-- The filesystem type tag used for an extended partition
(`type = FileSystem::Extended`), distinct from any detected type by
construction in the model. -/
def extendedFsType : Nat := 0

/-- A partition as represented in the tree by the scan loop. -/
structure ScannedPart where
  role : ScanRole
  geomStart : Int
  geomEnd : Int
  fsType : Nat
  deriving DecidableEq, Repr

/-- Building one tree entry from a representable record, mirroring the
`switch` bodies: normal → Primary, extended → Extended with the filesystem
type overridden to `FileSystem::Extended`, logical → Logical. -/
def buildScanned (r : RawRecord) (role : ScanRole) : ScannedPart :=
  { role := role
    geomStart := r.geomStart
    geomEnd := r.geomEnd
    fsType := if role = ScanRole.extended then extendedFsType else r.fsType }

/-- Shallow embedding of the `while (ped_disk_next_partition ...)` loop's
classification step: records with `num < 1` hit `continue`, the `switch`
assigns a role for normal/extended/logical and hits `continue` (the
`default:` branch) for every other kind; every represented record is appended
to the result list. -/
def scanClassify : List RawRecord → List ScannedPart
  | [] => []
  | r :: rs =>
    if r.num < 1 then scanClassify rs
    else
      match r.kind with
      | .normal => buildScanned r .primary :: scanClassify rs
      | .extended => buildScanned r .extended :: scanClassify rs
      | .logical => buildScanned r .logical :: scanClassify rs
      | _ => scanClassify rs

/-- A record the scan represents: valid number and representable kind. -/
def representable (r : RawRecord) : Bool :=
  !decide (r.num < 1) &&
    (match r.kind with
     | .normal => true
     | .extended => true
     | .logical => true
     | _ => false)

/-- The role `scanClassify` assigns to a representable record. -/
def roleOfKind : PedKind → ScanRole
  | .extended => .extended
  | .logical => .logical
  | _ => .primary

/-! ## LibPartedBackend::scanDevicePartitions: LUKS mount resolution
(src/plugins/libparted/libpartedbackend.cpp lines 352-383) -/

/-- The collaborators the mount-resolution step consults.  `mapperName node`
is `FS::luks::mapperName(node)` (empty string when no mapper device exists,
i.e. the container is locked); `findByDevice dev` is
`mountPoints.findByDevice(dev)` (the mount table lookup, `none` when the
device is not in the table); `isMountedDev dev` is the util-linux
`isMounted(dev)` check; `pedPartitionBusy` is `ped_partition_is_busy` for
this partition. -/
structure MountEnv where
  mapperName : String → String
  findByDevice : String → Option String
  isMountedDev : String → Bool
  pedPartitionBusy : Bool

/-- What the branch computes for one partition: its mount point, mounted
state, whether the luks object was marked crypt-open, and the mapper path the
inner filesystem was loaded from (`none` when `loadInnerFilesystem` was not
called). -/
structure MountResolution where
  mountPoint : Option String
  mounted : Bool
  cryptOpen : Option Bool
  innerLoadedFrom : Option String
  deriving DecidableEq, Repr

/-- Shallow embedding of the `if (fs->type() == FileSystem::Luks)` branch and
its `else`: for a LUKS filesystem the mapper name decides `isCryptOpen`; when
open, the inner filesystem is loaded from the mapper node and mount point and
mounted state are looked up by the mapper node; when locked, `mounted` is
false and nothing is loaded.  For every other filesystem type, the mount
point is looked up by the raw node and `mounted` is
`ped_partition_is_busy`. -/
def resolveMountState (env : MountEnv) (isLuks : Bool) (node : String) :
    MountResolution :=
  if isLuks then
    let mapperNode := env.mapperName node
    let isCryptOpen := !(mapperNode = "")
    if isCryptOpen then
      { mountPoint := env.findByDevice mapperNode
        mounted := env.isMountedDev mapperNode
        cryptOpen := some true
        innerLoadedFrom := some mapperNode }
    else
      { mountPoint := none
        mounted := false
        cryptOpen := some false
        innerLoadedFrom := none }
  else
    { mountPoint := env.findByDevice node
      mounted := env.pedPartitionBusy
      cryptOpen := none
      innerLoadedFrom := none }

/-! ## MovePhysicalVolumeJob::run (src/jobs/movephysicalvolumejob.cpp
lines 37-62) -/

/-- `QStringList::removeAll(s)` removes every occurrence of `s`. -/
def removeAll (s : String) (l : List String) : List String :=
  l.filter (fun x => !(x == s))

/-- The destination list built by the first `foreach` loop: starting from
`LvmDevice::getPVs(device().name())`, each member of the move list that is
contained in the list is removed (all its occurrences). -/
def buildDestinations (pvs : List String) (partList : List String) :
    List String :=
  partList.foldl
    (fun dest partPath =>
      if dest.contains partPath then removeAll partPath dest else dest)
    pvs

/-- One step of the second `foreach` loop: `movePV` for each path in list
order, breaking on the first failure.  `outcome p` is the boolean result of
`LvmDevice::movePV(*report, device(), p, destinations)`.  Returns the list
of paths for which `movePV` was invoked together with the final `rval`
(initialized `false` before the loop, so an empty move list returns
`false`). -/
def runMoves (outcome : String → Bool) : List String → Bool →
    List String × Bool
  | [], rval => ([], rval)
  | p :: ps, _ =>
    if outcome p then
      let rest := runMoves outcome ps true
      (p :: rest.1, rest.2)
    else
      ([p], false)

/-- Shallow embedding of `MovePhysicalVolumeJob::run`: build the destination
list, then move each listed volume, stopping at the first failure.
`outcome partPath dests` models `LvmDevice::movePV(report, device, partPath,
dests)`. -/
def movePhysicalVolumeRun (pvs : List String)
    (outcome : String → List String → Bool) (partList : List String) :
    List String × Bool :=
  let destinations := buildDestinations pvs partList
  runMoves (fun p => outcome p destinations) partList false

/-! ## DeleteOperation::preview / undo and logical renumbering
(src/ops/deleteoperation.cpp lines 78-88 and 98-107)

`preview()` calls `removePreviewPartition` then
`checkAdjustLogicalNumbers(p, false)`; `undo()` calls
`checkAdjustLogicalNumbers(p, true)` then `insertPreviewPartition`.  The
bodies of `Partition::adjustLogicalNumbers`, `removePreviewPartition` and
`insertPreviewPartition` live outside the four source files, so they are
modelled from the spec.  We model the mutation at the level of the extended
parent's child list. -/

/-- Modelled from the spec: `adjustLogicalNumbers(fromNumber, direction)`
(body in core/partition.cpp, outside src/) "shifts the number of every
Logical partition at or beyond `fromNumber` by `direction` (±1)". -/
def adjustOne (fromNumber direction : Int) (c : Partition) : Partition :=
  if c.roles.logical && decide (fromNumber ≤ c.number)
  then { c with number := c.number + direction } else c

def adjustLogicalNumbers (fromNumber direction : Int)
    (cs : List Partition) : List Partition :=
  cs.map (adjustOne fromNumber direction)

/-- `DeleteOperation::checkAdjustLogicalNumbers` (src): when the deleted
partition's parent is a Partition with the Extended role, the parent's
logical numbering is adjusted; on delete the shift starts at the deleted
partition's number with direction −1, and per the spec it is "called
symmetrically on undo with the opposite direction" (+1 from the same
number). -/
def checkAdjustLogicalNumbers (parentIsExtendedPartition : Bool)
    (undo : Bool) (p : Partition) (cs : List Partition) : List Partition :=
  if parentIsExtendedPartition then
    if undo then adjustLogicalNumbers p.number 1 cs
    else adjustLogicalNumbers p.number (-1) cs
  else cs

/-- Modelled from the spec: `insertPreviewPartition` re-inserts the partition
into its parent's child list at the position given by its sector range
(children are kept in ascending first-sector order; body outside src/). -/
def insertPreviewPartition (p : Partition) : List Partition → List Partition
  | [] => [p]
  | c :: cs =>
    if p.firstSector ≤ c.firstSector then p :: c :: cs
    else c :: insertPreviewPartition p cs

/-- `DeleteOperation::preview()` on the parent's child list: remove the
deleted partition (modelled from the spec: `removePreviewPartition` takes the
partition out of the tree), then adjust logical numbers downward. -/
def previewDelete (parentIsExtendedPartition : Bool) (p : Partition)
    (cs : List Partition) : List Partition :=
  checkAdjustLogicalNumbers parentIsExtendedPartition false p (cs.erase p)

/-- `DeleteOperation::undo()` on the parent's child list: adjust logical
numbers upward, then re-insert the partition. -/
def undoDelete (parentIsExtendedPartition : Bool) (p : Partition)
    (cs : List Partition) : List Partition :=
  insertPreviewPartition p
    (checkAdjustLogicalNumbers parentIsExtendedPartition true p cs)

/-! ## DeleteOperation destructor and operation lifecycle
(src/ops/deleteoperation.cpp lines 62-66)

The destructor is in src; the status transitions (`Operation::setStatus`,
the operation stack) are outside src and are modelled from the spec's
lifecycle: `None → Pending → Running → {Success, Error, Warning}`, with
`undo()` valid only from `Pending`. -/

inductive OpStatus where
  | statusNone
  | statusPending
  | statusRunning
  | statusSuccess
  | statusError
  | statusWarning
  deriving DecidableEq, Repr

/-- Modelled from the spec: the operation's lifecycle state plus the
book-keeping the ownership claim is about — whether `preview()` has run,
whether `undo()` has run, and whether the tree currently owns the deleted
partition (ownership moves to the operation at preview and back at undo). -/
structure OpState where
  status : OpStatus
  previewed : Bool
  undone : Bool
  treeOwnsPartition : Bool
  deriving DecidableEq, Repr

/-- The state of a freshly constructed operation. -/
def opInit : OpState :=
  { status := .statusNone, previewed := false, undone := false,
    treeOwnsPartition := true }

/-- Modelled from the spec: one lifecycle transition.  `preview()` is called
exactly once from the initial state and moves the partition's ownership to
the operation; the stack then marks the operation Pending.  `undo()` is only
valid from Pending and returns ownership to the tree.  `run` transitions
Pending → Running (never after an undo, which removes the operation from the
stack) and Running ends in Success, Error or Warning. -/
inductive OpStep : OpState → OpState → Prop where
  | preview (s : OpState) (h1 : s.status = .statusNone)
      (h2 : s.previewed = false) :
      OpStep s { status := .statusPending, previewed := true, undone := false,
                 treeOwnsPartition := false }
  | undo (s : OpState) (h1 : s.status = .statusPending)
      (h2 : s.undone = false) :
      OpStep s { s with undone := true, treeOwnsPartition := true }
  | runStart (s : OpState) (h1 : s.status = .statusPending)
      (h2 : s.undone = false) :
      OpStep s { s with status := .statusRunning }
  | finish (s : OpState) (fin : OpStatus) (h1 : s.status = .statusRunning)
      (h2 : fin = .statusSuccess ∨ fin = .statusError ∨ fin = .statusWarning) :
      OpStep s { s with status := fin }

/-- States an operation can actually be in (the destructor may run at any of
them). -/
def OpReachable : OpState → Prop :=
  Relation.ReflTransGen OpStep opInit

/-- Shallow embedding of the guard in `DeleteOperation::~DeleteOperation`:
`if (status() != StatusPending && status() != StatusNone) delete
m_DeletedPartition;`. -/
def destructorDeletesPartition (st : OpStatus) : Bool :=
  decide (st ≠ OpStatus.statusPending) && decide (st ≠ OpStatus.statusNone)

/-- The state of an operation that was previewed and then destroyed without
ever being undone or run: status is still Pending. -/
def previewedPendingState : OpState :=
  { status := .statusPending, previewed := true, undone := false,
    treeOwnsPartition := false }

/-! ## findPartitionBySector and parent resolution
(src/plugins/libparted/libpartedbackend.cpp lines 342-347)

The caller is in src; the body of
`PartitionNode::findPartitionBySector(sector, role)` lives in core/ (outside
src/) and is modelled from the spec: "returns the innermost node (preferring
an Extended partition) whose range contains `sector` and whose role matches
`roleFilter`, or the table root if none matches". -/

/-- A single role used as a search filter
(`PartitionRole(PartitionRole::Extended)` in the caller). -/
inductive RoleTag where
  | primary
  | extended
  | logical
  | unallocated
  | luks
  deriving DecidableEq, Repr

def Roles.hasTag (r : Roles) : RoleTag → Bool
  | .primary => r.primary
  | .extended => r.extended
  | .logical => r.logical
  | .unallocated => r.unallocated
  | .luks => r.luks

/-- A node of the partition tree below the table root: sector range, role
set, children. -/
inductive PNode where
  | mk : Int → Int → Roles → List PNode → PNode

mutual

def pnodeDecEq : (a b : PNode) → Decidable (a = b)
  | .mk f1 l1 r1 cs1, .mk f2 l2 r2 cs2 =>
    if h1 : f1 = f2 then
      if h2 : l1 = l2 then
        if h3 : r1 = r2 then
          match pnodeListDecEq cs1 cs2 with
          | isTrue h4 => isTrue (by rw [h1, h2, h3, h4])
          | isFalse h4 => isFalse (by intro h; injection h; contradiction)
        else isFalse (by intro h; injection h; contradiction)
      else isFalse (by intro h; injection h; contradiction)
    else isFalse (by intro h; injection h; contradiction)

def pnodeListDecEq : (a b : List PNode) → Decidable (a = b)
  | [], [] => isTrue rfl
  | [], _ :: _ => isFalse (by intro h; exact List.noConfusion h)
  | _ :: _, [] => isFalse (by intro h; exact List.noConfusion h)
  | x :: xs, y :: ys =>
    match pnodeDecEq x y with
    | isTrue h1 =>
      match pnodeListDecEq xs ys with
      | isTrue h2 => isTrue (by rw [h1, h2])
      | isFalse h2 => isFalse (by intro h; injection h; contradiction)
    | isFalse h1 => isFalse (by intro h; injection h; contradiction)

end

instance : DecidableEq PNode := pnodeDecEq

def PNode.first : PNode → Int
  | .mk f _ _ _ => f

def PNode.last : PNode → Int
  | .mk _ l _ _ => l

def PNode.nodeRoles : PNode → Roles
  | .mk _ _ r _ => r

def PNode.childList : PNode → List PNode
  | .mk _ _ _ cs => cs

/-- Does this node itself match the search: sector within [first, last] and
role set containing the filter role. -/
def selfMatch (s : Int) (filt : RoleTag) (n : PNode) : Bool :=
  decide (n.first ≤ s) && decide (s ≤ n.last) && n.nodeRoles.hasTag filt

mutual

/-- Modelled from the spec: recursive search for the innermost matching
node — a match found among the children (deeper) is preferred to the node
itself. -/
def findNode (s : Int) (filt : RoleTag) : PNode → Option PNode
  | .mk f l r cs =>
    match findNodeList s filt cs with
    | some m => some m
    | none =>
      if selfMatch s filt (.mk f l r cs) then some (.mk f l r cs) else none

/-- Search a child list left to right, returning the first subtree match. -/
def findNodeList (s : Int) (filt : RoleTag) : List PNode → Option PNode
  | [] => none
  | c :: cs =>
    match findNode s filt c with
    | some m => some m
    | none => findNodeList s filt cs

end

mutual

/-- A node together with all its descendants. -/
def subNodes : PNode → List PNode
  | .mk f l r cs => PNode.mk f l r cs :: subNodesList cs

/-- All nodes in all subtrees of a child list. -/
def subNodesList : List PNode → List PNode
  | [] => []
  | c :: cs => subNodes c ++ subNodesList cs

end

/-- The partition table root: usable range and top-level children. -/
structure PTable where
  firstUsable : Int
  lastUsable : Int
  children : List PNode
  deriving DecidableEq

/-- Result of `findPartitionBySector` at the table: a node of the tree, or
the table root itself. -/
inductive FindResult where
  | node (p : PNode)
  | root
  deriving DecidableEq

/-- Modelled from the spec: `findBySector(sector, roleFilter)` at the table
root — the innermost matching node, or the table root if none matches. -/
def findBySector (t : PTable) (s : Int) (filt : RoleTag) : FindResult :=
  match findNodeList s filt t.children with
  | some m => FindResult.node m
  | none => FindResult.root

/-- Shallow embedding of the parent-resolution step of
`scanDevicePartitions`: `parent = findPartitionBySector(start, Extended);
if (parent == nullptr) parent = d.partitionTable();`. -/
def resolveParent (t : PTable) (s : Int) : FindResult :=
  match findNodeList s RoleTag.extended t.children with
  | some p => FindResult.node p
  | none => FindResult.root

/-- The property the claim states of a search result: a returned node is a
node of the tree, matches, and has no matching strict descendant (it is
innermost); the root is returned only when no node of the tree matches. -/
def isInnermostResult (s : Int) (filt : RoleTag) (t : PTable) :
    FindResult → Bool
  | .node m =>
    decide (m ∈ subNodesList t.children) && selfMatch s filt m &&
      (subNodesList m.childList).all (fun d => !selfMatch s filt d)
  | .root => (subNodesList t.children).all (fun n => !selfMatch s filt n)

/-! ## Theorems -/

/-- C3: every DeleteOperation, for every shred-action choice, is composed of
exactly two jobs: first a filesystem-destroy-or-shred job, then the
partition-table-entry-removal job. -/
theorem c3_delete_operation_job_order (shred : ShredAction) :
    (deleteOperationJobs shred).length = 2 ∧
    ∃ j, deleteOperationJobs shred = [j, DeleteOpJob.deletePartitionJob] ∧
      j.destroysOrShredsFileSystem = true := by
  cases shred <;>
    exact ⟨rfl, _, rfl, rfl⟩

/-- C8: `ext2::check` reports success if and only if the e2fsck command runs
and its exit code is 0, 1, 2 or 256; every other exit code is failure. -/
theorem c8_ext2_check_exit_codes (ran : Bool) (exitCode : Int) :
    ext2Check ran exitCode = true ↔
      (ran = true ∧
        (exitCode = 0 ∨ exitCode = 1 ∨ exitCode = 2 ∨ exitCode = 256)) := by
  simp [ext2Check, or_assoc]

/-- C10: after `ext2::init()`, the capability flags satisfy the dependency
invariant: Grow only if Check, Shrink only if Grow and GetUsed, Copy and
Move only if Check. -/
theorem c10_ext2_capability_dependencies (pr : Ext2Probe) :
    ext2DepInvariant (ext2Init pr) = true := by
  rcases pr with ⟨d, e, m, c, t, r⟩
  cases d <;> cases e <;> cases m <;> cases c <;> cases t <;> cases r <;> rfl

/-- C7: the scan loop skips every record with an invalid partition number or
an unrepresentable kind and represents exactly the remaining records, in
order, without aborting. -/
theorem c7_scan_skips_unrepresentable (records : List RawRecord) :
    scanClassify records =
      (records.filter representable).map
        (fun r => buildScanned r (roleOfKind r.kind)) := by
  induction records with
  | nil => rfl
  | cons r rs ih =>
    by_cases hn : r.num < 1
    · simp [scanClassify, representable, hn, ih]
    · cases hk : r.kind <;>
        simp [scanClassify, representable, roleOfKind, hn, hk, ih]

/-- C4: for a detected LUKS container the reconciler resolves mount point and
mounted state through the mapped device path and loads the inner filesystem
exactly when a mapper device exists (the container is unlocked); a locked
container is recorded as not mounted with no inner filesystem loaded. -/
theorem c4_luks_mount_resolution (env : MountEnv) (node : String) :
    (env.mapperName node ≠ "" →
      resolveMountState env true node =
        { mountPoint := env.findByDevice (env.mapperName node)
          mounted := env.isMountedDev (env.mapperName node)
          cryptOpen := some true
          innerLoadedFrom := some (env.mapperName node) }) ∧
    (env.mapperName node = "" →
      resolveMountState env true node =
        { mountPoint := none
          mounted := false
          cryptOpen := some false
          innerLoadedFrom := none }) := by
  constructor <;> intro h <;> simp [resolveMountState, h]

/-- A concrete environment whose mapper table knows one open container. -/
def envUnlocked : MountEnv :=
  { mapperName := fun n => if n = "/dev/sda2" then "/dev/mapper/crypt1" else ""
    findByDevice := fun d => if d = "/dev/mapper/crypt1" then some "/mnt/data"
                             else none
    isMountedDev := fun d => decide (d = "/dev/mapper/crypt1")
    pedPartitionBusy := false }

/-- A concrete environment with no mapper devices (all containers locked). -/
def envLocked : MountEnv :=
  { mapperName := fun _ => ""
    findByDevice := fun _ => none
    isMountedDev := fun _ => false
    pedPartitionBusy := true }

/-- Witness for C4: both branches of the theorem at concrete inputs. -/
theorem c4_luks_mount_resolution_witness :
    resolveMountState envUnlocked true "/dev/sda2" =
      { mountPoint := some "/mnt/data", mounted := true,
        cryptOpen := some true, innerLoadedFrom := some "/dev/mapper/crypt1" } ∧
    resolveMountState envLocked true "/dev/sda2" =
      { mountPoint := none, mounted := false, cryptOpen := some false,
        innerLoadedFrom := none } := by
  constructor
  · have h := (c4_luks_mount_resolution envUnlocked "/dev/sda2").1 (by decide)
    rw [h]; decide
  · exact (c4_luks_mount_resolution envLocked "/dev/sda2").2 rfl

/-- C1 counterexample: (1) an unlocked (crypt-open), unmounted LUKS
container — none of the claim's four refusal conditions holds for it (in
particular it is not *locked*), so the claim says `canDelete` returns true,
but the source refuses an *open* container and returns false; (2) a locked
LUKS container — the claim refuses it, but the source returns true; (3) a
null pointer — none of the claim's conditions applies, so the claim says
true, but the source returns false. -/
theorem c1_can_delete_counterexample :
    (canDelete (some openLuksPart) = false ∧
      canDeleteClaimRefuses openLuksPart = false) ∧
    (canDelete (some lockedLuksPart) = true ∧
      canDeleteClaimRefuses lockedLuksPart = true) ∧
    canDelete none = false := by
  decide

/-- C1 amended: `canDelete(p)` returns false exactly when p is a null
pointer, a mounted partition, an Unallocated node, an Extended partition
whose children are not exactly one Unallocated node, or a Luks-role
partition whose filesystem object is not a luks object or whose container is
crypt-open or inner-mounted; it returns true in every other case. -/
theorem c1_can_delete_amended (p : Option Partition) :
    canDelete p = !canDeleteAmendedRefuses p := by
  cases p with
  | none => rfl
  | some q =>
    rcases q with ⟨⟨pr, ex, lo, un, lk⟩, m, num, fs, cs, lf⟩
    cases m <;> cases un <;> cases ex <;> cases lk <;>
      first
        | rfl
        | (cases lf <;>
            first
              | rfl
              | simp [canDelete, canDeleteAmendedRefuses])

theorem removeAll_of_not_mem (s : String) (l : List String)
    (h : s ∉ l) : removeAll s l = l := by
  apply List.filter_eq_self.mpr
  intro x hx
  simp only [Bool.not_eq_eq_eq_not, Bool.not_true, beq_eq_false_iff_ne,
    ne_eq]
  intro hxs
  subst hxs
  exact h hx

theorem buildDestinations_step (pvs : List String) (p : String)
    (ps : List String) :
    buildDestinations pvs (p :: ps) = buildDestinations (removeAll p pvs) ps := by
  unfold buildDestinations
  simp only [List.foldl_cons]
  by_cases hm : p ∈ pvs
  · simp [hm]
  · simp [hm, removeAll_of_not_mem p pvs hm]

theorem buildDestinations_eq_filter (pl pvs : List String) :
    buildDestinations pvs pl = pvs.filter (fun d => !pl.contains d) := by
  induction pl generalizing pvs with
  | nil =>
    simp [buildDestinations]
  | cons p ps ih =>
    rw [buildDestinations_step, ih, removeAll, List.filter_filter]
    apply List.filter_congr
    intro x _
    simp only [List.contains_cons, Bool.not_or]
    cases hd : (x == p) <;> cases hc : ps.contains x <;> simp_all

theorem runMoves_stops (oc : String → Bool) (pre rest : List String)
    (f : String) (rv : Bool) (hpre : ∀ x ∈ pre, oc x = true)
    (hf : oc f = false) :
    runMoves oc (pre ++ f :: rest) rv = (pre ++ [f], false) := by
  induction pre generalizing rv with
  | nil =>
    simp [runMoves, hf]
  | cons p ps ih =>
    have hp : oc p = true := hpre p (List.mem_cons_self p ps)
    have hps : ∀ x ∈ ps, oc x = true :=
      fun x hx => hpre x (List.mem_cons_of_mem p hx)
    simp [runMoves, hp, ih true hps]

/-- C9: `MovePhysicalVolumeJob::run` offers as destinations exactly the
volume group's physical volumes that are not in the move list (so a volume
being evacuated is never a destination), and it invokes `movePV` in list
order up to and including the first failing move, returning that move's
(false) result. -/
theorem c9_move_physical_volume_run (pvs : List String)
    (outcome : String → List String → Bool) (pre rest : List String)
    (f : String)
    (hpre : ∀ x ∈ pre,
      outcome x (buildDestinations pvs (pre ++ f :: rest)) = true)
    (hf : outcome f (buildDestinations pvs (pre ++ f :: rest)) = false) :
    buildDestinations pvs (pre ++ f :: rest) =
      pvs.filter (fun d => !(pre ++ f :: rest).contains d) ∧
    movePhysicalVolumeRun pvs outcome (pre ++ f :: rest) =
      (pre ++ [f], false) := by
  refine ⟨buildDestinations_eq_filter _ _, ?_⟩
  unfold movePhysicalVolumeRun
  exact runMoves_stops _ pre rest f false hpre hf

/-- Witness for C9: a three-volume group where the single listed volume's
move fails immediately. -/
theorem c9_move_physical_volume_run_witness :
    buildDestinations ["/dev/sda1", "/dev/sda2", "/dev/sda3"]
        ([] ++ "/dev/sda2" :: []) =
      ["/dev/sda1", "/dev/sda2", "/dev/sda3"].filter
        (fun d => !(([] ++ "/dev/sda2" :: []) : List String).contains d) ∧
    movePhysicalVolumeRun ["/dev/sda1", "/dev/sda2", "/dev/sda3"]
        (fun _ _ => false) ([] ++ "/dev/sda2" :: []) =
      ([] ++ ["/dev/sda2"], false) :=
  c9_move_physical_volume_run ["/dev/sda1", "/dev/sda2", "/dev/sda3"]
    (fun _ _ => false) [] [] "/dev/sda2" (by simp) rfl

theorem adjustOne_roundtrip (n : Int) (c : Partition)
    (h : c.roles.logical = true → c.number ≠ n) :
    adjustOne n 1 (adjustOne n (-1) c) = c := by
  rcases c with ⟨r, m, num, fs, cs, lf⟩
  by_cases hl : r.logical = true
  · by_cases hge : n ≤ num
    · have hne : num ≠ n := h hl
      have h1 : n ≤ num + -1 := by omega
      simp [adjustOne, hl, hge, h1]
    · simp [adjustOne, hl, hge]
  · simp only [Bool.not_eq_true] at hl
    simp [adjustOne, hl]

theorem adjust_roundtrip (n : Int) (cs : List Partition)
    (h : ∀ c ∈ cs, c.roles.logical = true → c.number ≠ n) :
    adjustLogicalNumbers n 1 (adjustLogicalNumbers n (-1) cs) = cs := by
  induction cs with
  | nil => rfl
  | cons c cs ih =>
    have hc := h c (List.mem_cons_self c cs)
    have hrest : ∀ x ∈ cs, x.roles.logical = true → x.number ≠ n :=
      fun x hx => h x (List.mem_cons_of_mem c hx)
    simp only [adjustLogicalNumbers, List.map_cons] at ih ⊢
    rw [adjustOne_roundtrip n c hc]
    exact congrArg _ (ih hrest)

theorem insert_erase_of_sorted (p : Partition) (cs : List Partition)
    (hs : cs.Pairwise (fun a b => a.firstSector < b.firstSector))
    (hm : p ∈ cs) :
    insertPreviewPartition p (cs.erase p) = cs := by
  induction cs with
  | nil => cases hm
  | cons c cs ih =>
    rw [List.pairwise_cons] at hs
    rcases hs with ⟨hc, hs'⟩
    by_cases hpc : c = p
    · subst hpc
      rw [List.erase_cons_head]
      cases cs with
      | nil => rfl
      | cons r rs =>
        have : c.firstSector < r.firstSector := hc r (List.mem_cons_self r rs)
        simp [insertPreviewPartition, le_of_lt this]
    · have hpm : p ∈ cs := by
        rcases List.mem_cons.mp hm with h | h
        · subst h; exact absurd rfl hpc
        · exact h
      have hlt : c.firstSector < p.firstSector := hc p hpm
      rw [List.erase_cons_tail (by simpa using hpc)]
      simp only [insertPreviewPartition, not_le.mpr hlt, ite_false]
      rw [ih hs' hpm]

/-- The elements `adjustLogicalNumbers` may renumber in the erased list all
differ from the deleted partition, so the no-number-collision hypothesis
carries over. -/
theorem adjust_hyp_of_erase (p : Partition) (cs : List Partition)
    (hs : cs.Pairwise (fun a b => a.firstSector < b.firstSector))
    (hnum : ∀ c ∈ cs, c ≠ p → c.roles.logical = true → c.number ≠ p.number) :
    ∀ c ∈ cs.erase p, c.roles.logical = true → c.number ≠ p.number := by
  have hnd : cs.Nodup :=
    hs.imp (fun {a b} hab => by
      intro hEq
      rw [hEq] at hab
      exact lt_irrefl _ hab)
  intro c hcmem
  have := (List.Nodup.mem_erase_iff hnd).mp hcmem
  exact hnum c this.2 this.1

/-- C2: for a Logical partition inside an Extended partition,
`DeleteOperation::preview()` followed by `DeleteOperation::undo()` restores
the extended partition's child list exactly: the partition is re-inserted at
its sector position and every sibling's logical number returns to its
pre-delete value. -/
theorem c2_preview_undo_roundtrip (p : Partition) (cs : List Partition)
    (_hlog : p.roles.logical = true)
    (hs : cs.Pairwise (fun a b => a.firstSector < b.firstSector))
    (hm : p ∈ cs)
    (hnum : ∀ c ∈ cs, c ≠ p → c.roles.logical = true → c.number ≠ p.number) :
    undoDelete true p (previewDelete true p cs) = cs := by
  unfold undoDelete previewDelete checkAdjustLogicalNumbers
  simp only [if_true, Bool.false_eq_true, if_false]
  rw [adjust_roundtrip p.number (cs.erase p) (adjust_hyp_of_erase p cs hs hnum)]
  exact insert_erase_of_sorted p cs hs hm

/-- Role set of a Logical partition. -/
def logicalRoles : Roles :=
  { primary := false, extended := false, logical := true,
    unallocated := false, luks := false }

/-- Role set of the synthetic Unallocated child. -/
def unallocRoles : Roles :=
  { primary := false, extended := false, logical := false,
    unallocated := true, luks := false }

/-- Logical partition number 5 at sectors [100000, 200000]. -/
def logical5 : Partition :=
  { roles := logicalRoles, isMounted := false, number := 5,
    firstSector := 100000, children := [], luksFs := none }

/-- Logical partition number 6 at sectors [200001, 300000]. -/
def logical6 : Partition :=
  { roles := logicalRoles, isMounted := false, number := 6,
    firstSector := 200001, children := [], luksFs := none }

/-- The Unallocated child covering the gap after the logicals. -/
def gapChild : Partition :=
  { roles := unallocRoles, isMounted := false, number := -1,
    firstSector := 300001, children := [], luksFs := none }

/-- Witness for C2: deleting then undoing Logical #5 next to Logical #6 and
an Unallocated gap restores the child list. -/
theorem c2_preview_undo_roundtrip_witness :
    logical5.roles.logical = true ∧
    ([logical5, logical6, gapChild] : List Partition).Pairwise
      (fun a b => a.firstSector < b.firstSector) ∧
    logical5 ∈ [logical5, logical6, gapChild] ∧
    (∀ c ∈ [logical5, logical6, gapChild], c ≠ logical5 →
      c.roles.logical = true → c.number ≠ logical5.number) ∧
    undoDelete true logical5
      (previewDelete true logical5 [logical5, logical6, gapChild]) =
      [logical5, logical6, gapChild] :=
  ⟨rfl, by decide, by decide, by decide,
    c2_preview_undo_roundtrip logical5 [logical5, logical6, gapChild]
      rfl (by decide) (by decide) (by decide)⟩

theorem opStep_undone_invariant (s s' : OpState) (h : OpStep s s')
    (inv : s.undone = true →
      s.status = OpStatus.statusPending ∧ s.treeOwnsPartition = true) :
    s'.undone = true →
      s'.status = OpStatus.statusPending ∧ s'.treeOwnsPartition = true := by
  cases h with
  | preview h1 h2 => intro hu; cases hu
  | undo h1 h2 => intro _; exact ⟨h1, rfl⟩
  | runStart h1 h2 => intro hu; rw [hu] at h2; cases h2
  | finish fin h1 h2 =>
    intro hu
    have hp := (inv hu).1
    rw [hp] at h1
    cases h1

theorem opReachable_undone_invariant (s : OpState) (h : OpReachable s) :
    s.undone = true →
      s.status = OpStatus.statusPending ∧ s.treeOwnsPartition = true := by
  induction h with
  | refl => intro hu; cases hu
  | tail _ hstep ih => exact opStep_undone_invariant _ _ hstep ih

/-- C5 counterexample: an operation that was previewed (taking ownership of
the deleted partition out of the tree) and is destroyed while still Pending,
never undone.  The claim says the Partition is destroyed ("exactly when the
operation was not undone"); the destructor's status guard skips the delete. -/
theorem c5_ownership_counterexample :
    OpReachable previewedPendingState ∧
    previewedPendingState.undone = false ∧
    previewedPendingState.treeOwnsPartition = false ∧
    destructorDeletesPartition previewedPendingState.status = false :=
  ⟨Relation.ReflTransGen.single (OpStep.preview opInit rfl rfl),
    rfl, rfl, rfl⟩

/-- C5 amended: the destructor destroys the deleted Partition exactly when
the operation's status is past Pending (it was committed); an undone
operation is still Pending, so its Partition — whose ownership has returned
to the tree — is never destroyed, but a merely-previewed, never-undone
operation destroyed while Pending does not destroy the Partition either. -/
theorem c5_destructor_ownership (s : OpState) (h : OpReachable s) :
    (destructorDeletesPartition s.status = true ↔
      (s.status ≠ OpStatus.statusPending ∧ s.status ≠ OpStatus.statusNone)) ∧
    (s.undone = true →
      destructorDeletesPartition s.status = false ∧
      s.treeOwnsPartition = true) := by
  constructor
  · simp [destructorDeletesPartition]
  · intro hu
    rcases opReachable_undone_invariant s h hu with ⟨h1, h2⟩
    exact ⟨by simp [destructorDeletesPartition, h1], h2⟩

/-- Witness for C5: the amended statement at the concrete state of an
operation destroyed right after `undo()`. -/
theorem c5_destructor_ownership_witness :
    (destructorDeletesPartition
        { status := OpStatus.statusPending, previewed := true, undone := true,
          treeOwnsPartition := true : OpState }.status = true ↔
      (({ status := OpStatus.statusPending, previewed := true, undone := true,
          treeOwnsPartition := true : OpState }).status ≠
          OpStatus.statusPending ∧
        ({ status := OpStatus.statusPending, previewed := true,
           undone := true, treeOwnsPartition := true : OpState }).status ≠
          OpStatus.statusNone)) ∧
    (({ status := OpStatus.statusPending, previewed := true, undone := true,
        treeOwnsPartition := true : OpState }).undone = true →
      destructorDeletesPartition
          { status := OpStatus.statusPending, previewed := true,
            undone := true, treeOwnsPartition := true : OpState }.status =
        false ∧
      ({ status := OpStatus.statusPending, previewed := true, undone := true,
         treeOwnsPartition := true : OpState }).treeOwnsPartition = true) :=
  c5_destructor_ownership
    { status := OpStatus.statusPending, previewed := true, undone := true,
      treeOwnsPartition := true }
    (Relation.ReflTransGen.tail
      (Relation.ReflTransGen.single (OpStep.preview opInit rfl rfl))
      (OpStep.undo previewedPendingState rfl rfl))

theorem pnode_ind (P : PNode → Prop)
    (h : ∀ f l r cs, (∀ c ∈ cs, P c) → P (PNode.mk f l r cs)) :
    ∀ n, P n
  | .mk f l r cs => h f l r cs (fun c hc => pnode_ind P h c)
termination_by n => sizeOf n
decreasing_by
  simp_wf
  have := List.sizeOf_lt_of_mem hc
  omega

/-- Correctness property of a search result over a given scope (all nodes of
the searched forest): a found node lies in the scope, matches, and has no
matching descendant; a `none` result means nothing in the scope matches. -/
def FindGood (s : Int) (filt : RoleTag) (scope : List PNode) :
    Option PNode → Prop
  | some m => m ∈ scope ∧ selfMatch s filt m = true ∧
      ∀ d ∈ subNodesList m.childList, selfMatch s filt d = false
  | none => ∀ x ∈ scope, selfMatch s filt x = false

theorem findNodeList_good_of (s : Int) (filt : RoleTag) (cs : List PNode)
    (h : ∀ c ∈ cs, FindGood s filt (subNodes c) (findNode s filt c)) :
    FindGood s filt (subNodesList cs) (findNodeList s filt cs) := by
  induction cs with
  | nil =>
    intro x hx
    cases hx
  | cons c cs ih =>
    have hc := h c (List.mem_cons_self c cs)
    have hrest := ih (fun x hx => h x (List.mem_cons_of_mem c hx))
    rw [findNodeList, subNodesList]
    cases hfc : findNode s filt c with
    | some m =>
      rw [hfc] at hc
      exact ⟨List.mem_append_left _ hc.1, hc.2.1, hc.2.2⟩
    | none =>
      rw [hfc] at hc
      cases hrest' : findNodeList s filt cs with
      | some m =>
        rw [hrest'] at hrest
        exact ⟨List.mem_append_right _ hrest.1, hrest.2.1, hrest.2.2⟩
      | none =>
        rw [hrest'] at hrest
        intro x hx
        rcases List.mem_append.mp hx with hx1 | hx2
        · exact hc x hx1
        · exact hrest x hx2

theorem findNode_good (s : Int) (filt : RoleTag) :
    ∀ n, FindGood s filt (subNodes n) (findNode s filt n) := by
  refine pnode_ind _ ?_
  intro f l r cs ihs
  have hlist := findNodeList_good_of s filt cs ihs
  rw [findNode, subNodes]
  cases hcs : findNodeList s filt cs with
  | some m =>
    rw [hcs] at hlist
    exact ⟨List.mem_cons_of_mem _ hlist.1, hlist.2.1, hlist.2.2⟩
  | none =>
    rw [hcs] at hlist
    by_cases hself : selfMatch s filt (PNode.mk f l r cs) = true
    · rw [if_pos hself]
      exact ⟨List.mem_cons_self _ _, hself, hlist⟩
    · rw [if_neg hself]
      intro x hx
      rcases List.mem_cons.mp hx with hx1 | hx2
      · rw [hx1]
        exact Bool.not_eq_true _ ▸ (by simpa using hself)
      · exact hlist x hx2

/-- C6: `findBySector` yields the innermost node whose range contains the
sector and whose role matches the filter — it lies in the tree, it matches,
and no strict descendant of it matches — and yields the table root exactly
when no node of the tree matches; the reconciler's parent resolution is
`findBySector` with the Extended filter (absence of an Extended match yields
the table root as parent). -/
theorem c6_find_by_sector_innermost (t : PTable) (s : Int) (filt : RoleTag) :
    isInnermostResult s filt t (findBySector t s filt) = true ∧
    resolveParent t s = findBySector t s RoleTag.extended := by
  refine ⟨?_, rfl⟩
  have hlist := findNodeList_good_of s filt t.children
    (fun c _ => findNode_good s filt c)
  rw [findBySector]
  cases hcs : findNodeList s filt t.children with
  | some m =>
    rw [hcs] at hlist
    rcases hlist with ⟨hmem, hmatch, hdesc⟩
    simp only [isInnermostResult, Bool.and_eq_true, decide_eq_true_eq,
      List.all_eq_true, Bool.not_eq_true']
    exact ⟨⟨hmem, hmatch⟩, hdesc⟩
  | none =>
    rw [hcs] at hlist
    simp only [isInnermostResult, List.all_eq_true, Bool.not_eq_true']
    exact hlist

end KPMCore
